import Mathlib

/-!
Shallow embedding of the Awign Screening Dashboard (a React/TypeScript SPA)
for checking its natural-language specification.

The relevant page-level logic is translated from the source files:
  * src/pages/Screening.tsx      (applyFilters: filtering and date sorting)
  * src/pages/Jobs.tsx           (fetchJobs; handleCsvUpload: CSV bulk insert
                                  and the generated result CSV)
  * src/pages/PMAnalytics.tsx    (fetchAnalytics: fallback query cascades and
                                  its catch handler)
  * src/pages/ResumeScoring.tsx  (handleStartScreening)
  * the Candidates page          (groupCandidatesByContact)

External runtime functions (JavaScript parseFloat, Date parsing, URL
validation) are taken as parameters of the embedding; `none` stands for
NaN / an invalid result.  JavaScript `Array.prototype.sort` is required by
the language standard to be stable, and for a consistent comparator a
stable sort has a unique result, so it is modelled by a stable insertion
sort on the comparator-induced boolean order.
-/

/-- JavaScript truthiness of a string: every non-empty string is truthy. -/
def jsTruthy (s : String) : Bool := s ≠ ""

/-- JavaScript truthiness of a nullable string: `null`/`undefined` and the
empty string are falsy. -/
def jsTruthyOpt (o : Option String) : Bool :=
  match o with
  | none => false
  | some s => s ≠ ""

/-- Model of JavaScript `String.prototype.trim`: drop leading and trailing
whitespace.  (Implemented structurally so that it evaluates by `decide`.) -/
def jsTrim (s : String) : String :=
  String.mk (((s.data.dropWhile Char.isWhitespace).reverse.dropWhile
    Char.isWhitespace).reverse)

/-- Stable insertion of `a` into `l` before the first element `b` with
`le a b`. -/
def insertSorted (le : α → α → Bool) (a : α) : List α → List α
  | [] => [a]
  | b :: l => if le a b then a :: b :: l else b :: insertSorted le a l

/-- Stable sort by a boolean comparator-order; models JavaScript
`Array.prototype.sort` with a consistent comparator. -/
def sortBy (le : α → α → Bool) : List α → List α
  | [] => []
  | a :: l => insertSorted le a (sortBy le l)

theorem insertSorted_perm (le : α → α → Bool) (a : α) (l : List α) :
    List.Perm (insertSorted le a l) (a :: l) := by
  induction l with
  | nil => exact List.Perm.refl _
  | cons b l ih =>
    rw [insertSorted]
    by_cases h : le a b = true
    · rw [if_pos h]
    · rw [if_neg h]
      exact (ih.cons b).trans (List.Perm.swap a b l)

theorem sortBy_perm (le : α → α → Bool) (l : List α) : List.Perm (sortBy le l) l := by
  induction l with
  | nil => exact List.Perm.refl _
  | cons a l ih =>
    exact (insertSorted_perm le a (sortBy le l)).trans (ih.cons a)

theorem mem_sortBy (le : α → α → Bool) (l : List α) (x : α) :
    x ∈ sortBy le l ↔ x ∈ l :=
  (sortBy_perm le l).mem_iff

theorem mem_insertSorted (le : α → α → Bool) (a : α) (l : List α) (x : α) :
    x ∈ insertSorted le a l ↔ x = a ∨ x ∈ l := by
  rw [(insertSorted_perm le a l).mem_iff]
  simp

theorem pairwise_insertSorted (le : α → α → Bool)
    (htot : ∀ x y, le x y = true ∨ le y x = true) (a : α) (l : List α)
    (htr : ∀ x ∈ a :: l, ∀ y ∈ a :: l, ∀ z ∈ a :: l,
      le x y = true → le y z = true → le x z = true)
    (hp : l.Pairwise (fun x y => le x y = true)) :
    (insertSorted le a l).Pairwise (fun x y => le x y = true) := by
  induction l with
  | nil => simp [insertSorted]
  | cons b l ih =>
    rw [insertSorted]
    rw [List.pairwise_cons] at hp
    by_cases h : le a b = true
    · rw [if_pos h]
      refine List.Pairwise.cons ?_ (List.Pairwise.cons hp.1 hp.2)
      intro y hy
      rcases List.mem_cons.1 hy with rfl | hy'
      · exact h
      · exact htr a (by simp) b (by simp) y (by simp [hy'])
          h (hp.1 y hy')
    · rw [if_neg h]
      refine List.Pairwise.cons ?_ ?_
      · intro y hy
        rcases (mem_insertSorted le a l y).1 hy with rfl | hy'
        · rcases htot y b with h' | h'
          · exact absurd h' h
          · exact h'
        · exact hp.1 y hy'
      · refine ih ?_ hp.2
        intro x hx y hy z hz
        have sub : ∀ w, w ∈ a :: l → w ∈ a :: b :: l := by
          intro w hw
          rcases List.mem_cons.1 hw with rfl | hw'
          · simp
          · simp [hw']
        exact htr x (sub x hx) y (sub y hy) z (sub z hz)

theorem pairwise_sortBy (le : α → α → Bool)
    (htot : ∀ x y, le x y = true ∨ le y x = true) (l : List α)
    (htr : ∀ x ∈ l, ∀ y ∈ l, ∀ z ∈ l,
      le x y = true → le y z = true → le x z = true) :
    (sortBy le l).Pairwise (fun x y => le x y = true) := by
  induction l with
  | nil => simp [sortBy]
  | cons a l ih =>
    rw [sortBy]
    refine pairwise_insertSorted le htot a (sortBy le l) ?_ ?_
    · intro x hx y hy z hz
      have sub : ∀ w, w ∈ a :: sortBy le l → w ∈ a :: l := by
        intro w hw
        rcases List.mem_cons.1 hw with rfl | hw'
        · simp
        · exact List.mem_cons_of_mem a ((mem_sortBy le l w).1 hw')
      exact htr x (sub x hx) y (sub y hy) z (sub z hz)
    · refine ih ?_
      intro x hx y hy z hz
      exact htr x (List.mem_cons_of_mem a hx) y (List.mem_cons_of_mem a hy)
        z (List.mem_cons_of_mem a hz)

namespace Screening

/-- The fields of a transformed screening record that `applyFilters` in
`src/pages/Screening.tsx` inspects (the remaining display-only fields of the
`ScreeningRecord` interface play no role in filtering or sorting).  Each
field is `Option String`: `none` models a `null` value. -/
structure ScreeningRecord where
  callStatus : Option String
  roleCode : Option String
  screeningOutcome : Option String
  finalScore : Option String
  dateCreated : Option String
deriving DecidableEq, Repr

/-- The filter-state variables read by `applyFilters`. -/
structure Filters where
  callStatusFilter : String
  roleCodeFilter : String
  screeningOutcomeFilter : String
  finalScoreMin : String
  finalScoreMax : String
  dateSortOrder : String
deriving DecidableEq, Repr

/-- `const score = s["Final Score"] ? parseFloat(s["Final Score"]) : null`.
`pf` models JavaScript `parseFloat`; `pf s = none` models NaN. -/
def scoreOf (pf : String → Option ℚ) (r : ScreeningRecord) : Option ℚ :=
  match r.finalScore with
  | none => none
  | some s => if s = "" then none else pf s

/-- `const min = finalScoreMin ? parseFloat(finalScoreMin) : 0`. -/
def minBound (pf : String → Option ℚ) (f : Filters) : Option ℚ :=
  if jsTruthy f.finalScoreMin then pf f.finalScoreMin else some 0

/-- `const max = finalScoreMax ? parseFloat(finalScoreMax) : 100`. -/
def maxBound (pf : String → Option ℚ) (f : Filters) : Option ℚ :=
  if jsTruthy f.finalScoreMax then pf f.finalScoreMax else some 100

/-- Body of the Final-Score-range filter callback: `score >= min && score <=
max`, where any comparison against NaN is false. -/
def scorePass (pf : String → Option ℚ) (f : Filters) (r : ScreeningRecord) :
    Bool :=
  match scoreOf pf r with
  | none => false
  | some q =>
    match minBound pf f, maxBound pf f with
    | some m, some M => decide (m ≤ q ∧ q ≤ M)
    | _, _ => false

/-- The key computed from `"Date Created"` in the sort comparator of
`applyFilters`:
`a["Date Created"] ? new Date(a["Date Created"]).getTime() : -Infinity`.
`dp` models `new Date(s).getTime()` in epoch milliseconds, with `dp s = none`
for an invalid date (NaN). -/
inductive DateKey where
  | negInf : DateKey
  | nan : DateKey
  | num : ℤ → DateKey
deriving DecidableEq, Repr

def dateKey (dp : String → Option ℤ) (r : ScreeningRecord) : DateKey :=
  match r.dateCreated with
  | none => DateKey.negInf
  | some s =>
    if s = "" then DateKey.negInf
    else
      match dp s with
      | none => DateKey.nan
      | some t => DateKey.num t

/-- The sort comparator of `applyFilters`; a NaN arithmetic result is mapped
to 0, as the ECMAScript `SortCompare` operation does. -/
def dateCmp (dp : String → Option ℤ) (ord : String)
    (a b : ScreeningRecord) : ℤ :=
  match dateKey dp a, dateKey dp b with
  | DateKey.negInf, DateKey.negInf => 0
  | DateKey.negInf, _ => 1
  | _, DateKey.negInf => -1
  | DateKey.nan, _ => 0
  | _, DateKey.nan => 0
  | DateKey.num x, DateKey.num y => if ord = "new" then y - x else x - y

/-- The boolean order induced by the comparator (`compare a b <= 0`). -/
def dateLe (dp : String → Option ℤ) (ord : String)
    (a b : ScreeningRecord) : Bool :=
  dateCmp dp ord a b ≤ 0

/-- The four sequential filter stages of `applyFilters` from
`src/pages/Screening.tsx` (everything before the sort). -/
def filterStages (pf : String → Option ℚ) (f : Filters)
    (data : List ScreeningRecord) : List ScreeningRecord :=
  let l1 := if f.callStatusFilter ≠ "all" then
      data.filter (fun s => decide (s.callStatus = some f.callStatusFilter))
    else data
  let l2 := if f.roleCodeFilter ≠ "all" then
      l1.filter (fun s => decide (s.roleCode = some f.roleCodeFilter))
    else l1
  let l3 := if f.screeningOutcomeFilter ≠ "all" then
      l2.filter (fun s =>
        decide (s.screeningOutcome = some f.screeningOutcomeFilter))
    else l2
  if jsTruthy f.finalScoreMin || jsTruthy f.finalScoreMax then
    l3.filter (scorePass pf f)
  else l3

/-- `applyFilters` from `src/pages/Screening.tsx`: the four sequential
filter stages followed by the `"Date Created"` sort. -/
def applyFilters (pf : String → Option ℚ) (dp : String → Option ℤ)
    (f : Filters) (data : List ScreeningRecord) : List ScreeningRecord :=
  sortBy (dateLe dp f.dateSortOrder) (filterStages pf f data)

theorem scorePass_iff (pf : String → Option ℚ) (f : Filters)
    (r : ScreeningRecord) :
    scorePass pf f r = true ↔
      ∃ q m M, scoreOf pf r = some q ∧ minBound pf f = some m ∧
        maxBound pf f = some M ∧ m ≤ q ∧ q ≤ M := by
  unfold scorePass
  rcases hs : scoreOf pf r with _ | q
  · simp
  · rcases hm : minBound pf f with _ | m
    · simp
    · rcases hM : maxBound pf f with _ | M
      · simp
      · simp only [decide_eq_true_eq]
        constructor
        · intro h
          exact ⟨q, m, M, rfl, rfl, rfl, h.1, h.2⟩
        · rintro ⟨q', m', M', hq, hm', hM', h1, h2⟩
          cases hq
          cases hm'
          cases hM'
          exact ⟨h1, h2⟩

end Screening

namespace Screening

/-- C1: a fetched screening record is kept in the filtered view state by
`applyFilters` exactly when it passes every active predicate: equality with
the Call Status / Role Code / Screening Outcome filter values whenever those
are not "all", and, when a score bound is set, a Final Score that parses to
a number `q` with `min ≤ q ≤ max`, where the minimum defaults to 0 and the
maximum to 100 and records with a missing or unparsable Final Score are
excluded (an unparsable parse result is `none`, so no record passes a bound
of `none`). -/
theorem C1_applyFilters_membership (pf : String → Option ℚ)
    (dp : String → Option ℤ) (f : Filters) (data : List ScreeningRecord)
    (r : ScreeningRecord) :
    r ∈ applyFilters pf dp f data ↔
      r ∈ data
      ∧ (f.callStatusFilter ≠ "all" → r.callStatus = some f.callStatusFilter)
      ∧ (f.roleCodeFilter ≠ "all" → r.roleCode = some f.roleCodeFilter)
      ∧ (f.screeningOutcomeFilter ≠ "all" →
          r.screeningOutcome = some f.screeningOutcomeFilter)
      ∧ ((jsTruthy f.finalScoreMin = true ∨ jsTruthy f.finalScoreMax = true) →
          ∃ q m M, scoreOf pf r = some q ∧ minBound pf f = some m ∧
            maxBound pf f = some M ∧ m ≤ q ∧ q ≤ M) := by
  have stage : ∀ (c : Prop) (inst : Decidable c)
      (p : ScreeningRecord → Bool) (l : List ScreeningRecord)
      (x : ScreeningRecord),
      (x ∈ if c then l.filter p else l) ↔ x ∈ l ∧ (c → p x = true) := by
    intro c inst p l x
    split_ifs with h
    · rw [List.mem_filter]
      exact ⟨fun h' => ⟨h'.1, fun _ => h'.2⟩, fun h' => ⟨h'.1, h'.2 h⟩⟩
    · exact ⟨fun h1 => ⟨h1, fun hc => absurd hc h⟩, fun h' => h'.1⟩
  simp only [applyFilters, filterStages, mem_sortBy, stage,
    decide_eq_true_eq, scorePass_iff, Bool.or_eq_true]
  tauto

end Screening

namespace Screening

theorem filterStages_subset (pf : String → Option ℚ) (f : Filters)
    (data : List ScreeningRecord) (r : ScreeningRecord)
    (h : r ∈ filterStages pf f data) : r ∈ data := by
  unfold filterStages at h
  split_ifs at h <;> simp only [List.mem_filter] at h <;> tauto

theorem dateCmp_swap (dp : String → Option ℤ) (ord : String)
    (a b : ScreeningRecord) : dateCmp dp ord b a = -dateCmp dp ord a b := by
  unfold dateCmp
  rcases ha : dateKey dp a with _ | _ | x <;>
    rcases hb : dateKey dp b with _ | _ | y <;> simp <;> split_ifs <;> omega

theorem dateLe_total (dp : String → Option ℤ) (ord : String)
    (a b : ScreeningRecord) :
    dateLe dp ord a b = true ∨ dateLe dp ord b a = true := by
  unfold dateLe
  rw [dateCmp_swap]
  simp only [decide_eq_true_eq]
  omega

theorem dateLe_trans_of_not_nan (dp : String → Option ℤ) (ord : String)
    (a b c : ScreeningRecord) (hA : dateKey dp a ≠ DateKey.nan)
    (hB : dateKey dp b ≠ DateKey.nan) (hC : dateKey dp c ≠ DateKey.nan)
    (h1 : dateLe dp ord a b = true) (h2 : dateLe dp ord b c = true) :
    dateLe dp ord a c = true := by
  unfold dateLe dateCmp at *
  rcases ha : dateKey dp a with _ | _ | x <;>
    rcases hb : dateKey dp b with _ | _ | y <;>
      rcases hc : dateKey dp c with _ | _ | z <;>
        simp_all <;> split_ifs at * <;> omega

theorem dateCmp_num_num (dp : String → Option ℤ) (ord : String)
    (a b : ScreeningRecord) (x y : ℤ) (hA : dateKey dp a = DateKey.num x)
    (hB : dateKey dp b = DateKey.num y) :
    dateCmp dp ord a b = if ord = "new" then y - x else x - y := by
  unfold dateCmp
  rw [hA, hB]

theorem dateCmp_negInf_num (dp : String → Option ℤ) (ord : String)
    (a b : ScreeningRecord) (y : ℤ) (hA : dateKey dp a = DateKey.negInf)
    (hB : dateKey dp b = DateKey.num y) :
    dateCmp dp ord a b = 1 := by
  unfold dateCmp
  rw [hA, hB]

/-- C6: `applyFilters` orders the filtered records by "Date Created": for
every pair of records with valid (parsed) dates, `dateSortOrder` "new"
yields non-increasing and "old" non-decreasing epoch order, and a record
whose "Date Created" is missing is never placed before a record with a
valid date.  The hypothesis states that no fetched record carries a
present-but-unparsable date string (for such a NaN key the comparator is
inconsistent and ECMAScript leaves the sort order implementation-defined). -/
theorem C6_applyFilters_dateSorted (pf : String → Option ℚ)
    (dp : String → Option ℤ) (f : Filters) (data : List ScreeningRecord)
    (hnn : ∀ r ∈ data, dateKey dp r ≠ DateKey.nan) :
    (applyFilters pf dp f data).Pairwise (fun a b =>
      (∀ x y, dateKey dp a = DateKey.num x → dateKey dp b = DateKey.num y →
        (f.dateSortOrder = "new" → y ≤ x) ∧
        (f.dateSortOrder = "old" → x ≤ y))
      ∧ ¬(dateKey dp a = DateKey.negInf ∧
          ∃ y, dateKey dp b = DateKey.num y)) := by
  unfold applyFilters
  have hnn4 : ∀ r ∈ filterStages pf f data, dateKey dp r ≠ DateKey.nan :=
    fun r hr => hnn r (filterStages_subset pf f data r hr)
  have hp := pairwise_sortBy (dateLe dp f.dateSortOrder)
    (dateLe_total dp f.dateSortOrder) (filterStages pf f data)
    (fun x hx y hy z hz => dateLe_trans_of_not_nan dp f.dateSortOrder x y z
      (hnn4 x hx) (hnn4 y hy) (hnn4 z hz))
  refine List.Pairwise.imp_of_mem ?_ hp
  intro a b ha hb hab
  unfold dateLe at hab
  simp only [decide_eq_true_eq] at hab
  constructor
  · intro x y hx hy
    rw [dateCmp_num_num dp f.dateSortOrder a b x y hx hy] at hab
    constructor
    · intro hord
      rw [if_pos hord] at hab
      omega
    · intro hord
      have hne : f.dateSortOrder ≠ "new" := by
        rw [hord]
        decide
      rw [if_neg hne] at hab
      omega
  · rintro ⟨hA, y, hB⟩
    rw [dateCmp_negInf_num dp f.dateSortOrder a b y hA hB] at hab
    omega

/-- Witness for C6 at a concrete input: two records, one with a parsed
date and one with a missing date, sorted with order "new". -/
theorem C6_witness :
    (∀ r ∈ [ScreeningRecord.mk none none none none (some "2024-01-02"),
        ScreeningRecord.mk none none none none none],
      dateKey (fun _ => some 5) r ≠ DateKey.nan)
    ∧ (applyFilters (fun _ => none) (fun _ => some 5)
        (Filters.mk "all" "all" "all" "" "" "new")
        [ScreeningRecord.mk none none none none (some "2024-01-02"),
         ScreeningRecord.mk none none none none none]).Pairwise (fun a b =>
      (∀ x y, dateKey (fun _ => some 5) a = DateKey.num x →
          dateKey (fun _ => some 5) b = DateKey.num y →
        ((Filters.mk "all" "all" "all" "" "" "new").dateSortOrder = "new" →
          y ≤ x) ∧
        ((Filters.mk "all" "all" "all" "" "" "new").dateSortOrder = "old" →
          x ≤ y))
      ∧ ¬(dateKey (fun _ => some 5) a = DateKey.negInf ∧
          ∃ y, dateKey (fun _ => some 5) b = DateKey.num y)) :=
  ⟨by decide, C6_applyFilters_dateSorted (fun _ => none) (fun _ => some 5)
    (Filters.mk "all" "all" "all" "" "" "new")
    [ScreeningRecord.mk none none none none (some "2024-01-02"),
     ScreeningRecord.mk none none none none none] (by decide)⟩

end Screening

/-- A toast notification as produced by the `useToast` hook. -/
structure Toast where
  title : String
  description : String
  variant : Option String
deriving DecidableEq, Repr

/-- The slice of a page component's local state that the error-handling
claims concern: the mirrored rows, the loading flag, the toasts shown so
far and the messages written with `console.error`. -/
structure PageState (ρ : Type) where
  rows : List ρ
  loading : Bool
  toasts : List Toast
  consoleErrors : List String
deriving DecidableEq, Repr

/-- Outcome of one remote query: `ok data` models `{ data, error: null }`
(where `data` itself may be `null`), `err msg` models `{ error }` with
`error.message = msg`. -/
inductive FetchOutcome (ρ : Type) where
  | ok : Option (List ρ) → FetchOutcome ρ
  | err : String → FetchOutcome ρ
deriving DecidableEq, Repr

namespace Jobs

/-- The toast shown by the `catch` block of `fetchJobs` in
`src/pages/Jobs.tsx` (`error.message || "Failed to fetch jobs. ..."`). -/
def fetchJobsErrorToast (msg : String) : Toast :=
  { title := "Error fetching jobs"
    description := if jsTruthy msg then msg
      else "Failed to fetch jobs. Please check if you have the required permissions (admin role)."
    variant := some "destructive" }

/-- `fetchJobs` from `src/pages/Jobs.tsx` as a transformer of the page
state, given the outcome of the single remote query it issues.  On an
error the function logs twice (once before `throw`, once in `catch`),
shows a destructive toast and leaves `jobs` untouched; on success it
stores `data || []`. -/
def fetchJobs (st : PageState ρ) (res : FetchOutcome ρ) : PageState ρ :=
  match res with
  | FetchOutcome.err msg =>
    { st with
      loading := false
      toasts := st.toasts ++ [fetchJobsErrorToast msg]
      consoleErrors := st.consoleErrors ++
        ["Error fetching jobs: " ++ msg, "Error in fetchJobs: " ++ msg] }
  | FetchOutcome.ok data =>
    { st with loading := false, rows := data.getD [] }

/-- C4: `fetchJobs` stores into the jobs view state exactly the rows
returned by the last successful fetch (the empty list when the returned
`data` is `null`), and a fetch that returns an error leaves the jobs view
state unchanged. -/
theorem C4_fetchJobs_rows (st : PageState ρ) (d : Option (List ρ))
    (msg : String) :
    (fetchJobs st (FetchOutcome.ok d)).rows = d.getD []
    ∧ (fetchJobs st (FetchOutcome.err msg)).rows = st.rows := by
  constructor <;> rfl

end Jobs

namespace PMAnalytics

/-- The `catch` handler of `fetchAnalytics` in `src/pages/PMAnalytics.tsx`:
`console.error("Error fetching PM Analytics:", error)` and nothing else
(no toast is created anywhere in that page), then `setLoading(false)`. -/
def fetchAnalyticsCatch (st : PageState ρ) (msg : String) : PageState ρ :=
  { st with
    loading := false
    consoleErrors := st.consoleErrors ++ ["Error fetching PM Analytics: " ++ msg] }

/-- Identity of a remote query as far as the retry claims are concerned:
the table read and, for the count queries, the column filtered with `.eq`
together with its value. -/
structure Query where
  table : String
  eqFilter : Option (String × String)
deriving DecidableEq, Repr

/-- The tracker fetch of `fetchAnalytics`: `AEX_Screening_Tracker` first,
then a fallback to the lowercase table name `screening_tracker` when the
first result carries an error.  `fails q = true` models "the query `q`
returned an error"; the result is the list of queries issued, in order. -/
def trackerFetchTrace (fails : Query → Bool) : List Query :=
  let q1 : Query := ⟨"AEX_Screening_Tracker", none⟩
  if fails q1 then [q1, ⟨"screening_tracker", none⟩] else [q1]

/-- The four count-query variants tried for the rejected count when no
tracker data was fetched (`.eq` column spelled `Screening_Outcome`,
`"Screening Outcome"`, `screening_outcome`, then the lowercase table). -/
def rejectedQuery1 : Query :=
  ⟨"AEX_Screening_Tracker", some ("Screening_Outcome", "Not Suitable")⟩
def rejectedQuery2 : Query :=
  ⟨"AEX_Screening_Tracker", some ("Screening Outcome", "Not Suitable")⟩
def rejectedQuery3 : Query :=
  ⟨"AEX_Screening_Tracker", some ("screening_outcome", "Not Suitable")⟩
def rejectedQuery4 : Query :=
  ⟨"screening_tracker", some ("screening_outcome", "Not Suitable")⟩

/-- The cascade `result = await q1; if (result.error) result = await q2;
if (result.error) ... ` of the rejected-count fallback in
`fetchAnalytics`: each next variant is issued only when the latest result
carries an error. -/
def rejectedCountTrace (fails : Query → Bool) : List Query :=
  rejectedQuery1 ::
    (if fails rejectedQuery1 then
      rejectedQuery2 ::
        (if fails rejectedQuery2 then
          rejectedQuery3 ::
            (if fails rejectedQuery3 then [rejectedQuery4] else [])
        else [])
    else [])

/-- The single query issued by `fetchJobs` in `src/pages/Jobs.tsx`,
regardless of failures: no retry of any kind. -/
def jobsFetchTrace (fails : Query → Bool) : List Query :=
  [⟨"AEX_Job_Data", none⟩]

end PMAnalytics

/-- C2 counterexample: in `src/pages/PMAnalytics.tsx` the `catch` block of
`fetchAnalytics` logs the error to the console but shows no toast (the
page creates no toast anywhere), so a failing remote call on that page is
not surfaced to the user as a toast notification — the claimed behaviour
is not uniform across all pages. -/
theorem C2_counterexample :
    (PMAnalytics.fetchAnalyticsCatch
      (PageState.mk ([] : List Unit) true [] []) "Network error").toasts = []
    ∧ (PMAnalytics.fetchAnalyticsCatch
        (PageState.mk ([] : List Unit) true [] []) "Network error").consoleErrors
      = ["Error fetching PM Analytics: Network error"] := by
  decide

namespace ResumeScoring

/-- The `catch` block of `handleStartScreening` in
`src/pages/ResumeScoring.tsx` (lines 415-420): a destructive toast with
`error.message || "Failed to start screening"` and no console logging;
`finally` clears the in-flight flag. -/
def handleStartScreeningCatch (st : PageState ρ) (msg : String) :
    PageState ρ :=
  { st with
    loading := false
    toasts := st.toasts ++ [Toast.mk "Error"
      (if jsTruthy msg then msg else "Failed to start screening")
      (some "destructive")] }

end ResumeScoring

namespace Jobs

/-- The `catch` block of `handleSubmit` in `src/pages/Jobs.tsx` (lines
252-257): a destructive toast with `error.message`, no console logging. -/
def handleSubmitCatch (st : PageState ρ) (msg : String) : PageState ρ :=
  { st with
    loading := false
    toasts := st.toasts ++ [Toast.mk "Error" msg (some "destructive")] }

/-- The `catch` block of `handleCsvUpload` in `src/pages/Jobs.tsx` (lines
727-732): a destructive toast with `error.message`, no console logging. -/
def handleCsvUploadCatch (st : PageState ρ) (msg : String) : PageState ρ :=
  { st with
    loading := false
    toasts := st.toasts ++ [Toast.mk "Error" msg (some "destructive")] }

/-- The Role-Code pre-fetch inside `handleCsvUpload`
(`const { data: existingJobs } = await supabase...select('"Role Code"')`,
Jobs.tsx line 485): only `data` is destructured, the error field is never
read, so a failed query behaves exactly like a `null` result — the upload
proceeds as if no Role Codes existed, with no toast, no log and no
throw. -/
def existingRoleCodesFetch (res : FetchOutcome (Option String)) :
    List String :=
  match res with
  | FetchOutcome.ok d => (d.getD []).filterMap id
  | FetchOutcome.err _ => []

end Jobs

namespace Candidates

/-- The `catch` block of the Candidates page's `handleSubmit`
(part_001 line 639): a destructive toast with `error.message`, no console
logging. -/
def handleSubmitCatch (st : PageState ρ) (msg : String) : PageState ρ :=
  { st with
    loading := false
    toasts := st.toasts ++ [Toast.mk "Error" msg (some "destructive")] }

/-- The `catch` block of the Candidates page's `handleCsvUpload`
(part_001 line 779): a destructive toast with `error.message`, no console
logging. -/
def handleCsvUploadCatch (st : PageState ρ) (msg : String) : PageState ρ :=
  { st with
    loading := false
    toasts := st.toasts ++ [Toast.mk "Error" msg (some "destructive")] }

end Candidates

/-- C2 amended: remote-call failures are handled locally per action —
none aborts the SPA — but neither the toast nor the console log is
uniform: `fetchJobs` in Jobs shows a destructive toast *and* logs to the
console; `fetchAnalytics` in PM Analytics logs to the console and shows
no toast; the mutation handlers `handleStartScreening` (Resume Scoring),
`handleSubmit` and `handleCsvUpload` (Jobs), and the Candidates page's
submit and CSV-upload handlers show a toast without any console logging;
and the Role-Code pre-fetch inside Jobs' `handleCsvUpload` ignores its
error entirely, proceeding exactly as if the query had returned no
rows. -/
theorem C2_amended_error_surfacing (ρ : Type) (st : PageState ρ)
    (msg : String) (d : List (Option String)) :
    (Jobs.fetchJobs st (FetchOutcome.err msg)).toasts
        = st.toasts ++ [Jobs.fetchJobsErrorToast msg]
    ∧ (Jobs.fetchJobs st (FetchOutcome.err msg)).consoleErrors
        = st.consoleErrors ++
          ["Error fetching jobs: " ++ msg, "Error in fetchJobs: " ++ msg]
    ∧ (PMAnalytics.fetchAnalyticsCatch st msg).toasts = st.toasts
    ∧ (PMAnalytics.fetchAnalyticsCatch st msg).consoleErrors
        = st.consoleErrors ++ ["Error fetching PM Analytics: " ++ msg]
    ∧ (ResumeScoring.handleStartScreeningCatch st msg).toasts
        = st.toasts ++ [Toast.mk "Error"
            (if jsTruthy msg then msg else "Failed to start screening")
            (some "destructive")]
    ∧ (ResumeScoring.handleStartScreeningCatch st msg).consoleErrors
        = st.consoleErrors
    ∧ (Jobs.handleSubmitCatch st msg).toasts
        = st.toasts ++ [Toast.mk "Error" msg (some "destructive")]
    ∧ (Jobs.handleSubmitCatch st msg).consoleErrors = st.consoleErrors
    ∧ (Jobs.handleCsvUploadCatch st msg).toasts
        = st.toasts ++ [Toast.mk "Error" msg (some "destructive")]
    ∧ (Jobs.handleCsvUploadCatch st msg).consoleErrors = st.consoleErrors
    ∧ (Candidates.handleSubmitCatch st msg).toasts
        = st.toasts ++ [Toast.mk "Error" msg (some "destructive")]
    ∧ (Candidates.handleSubmitCatch st msg).consoleErrors
        = st.consoleErrors
    ∧ (Candidates.handleCsvUploadCatch st msg).toasts
        = st.toasts ++ [Toast.mk "Error" msg (some "destructive")]
    ∧ (Candidates.handleCsvUploadCatch st msg).consoleErrors
        = st.consoleErrors
    ∧ Jobs.existingRoleCodesFetch (FetchOutcome.err msg)
        = Jobs.existingRoleCodesFetch (FetchOutcome.ok none)
    ∧ Jobs.existingRoleCodesFetch (FetchOutcome.ok (some d))
        = d.filterMap id :=
  ⟨rfl, rfl, rfl, rfl, rfl, rfl, rfl, rfl, rfl, rfl, rfl, rfl, rfl, rfl,
    rfl, rfl⟩

/-- C3 counterexample: in `fetchAnalytics` of `src/pages/PMAnalytics.tsx`,
when the rejected-count query fails, the action reissues variants of the
same query — same table with a differently spelled column, and finally a
lowercase table name — so a failure result does cause a variant to be
reissued within the action. -/
theorem C3_counterexample :
    PMAnalytics.rejectedCountTrace (fun _ => true)
      = [PMAnalytics.rejectedQuery1, PMAnalytics.rejectedQuery2,
         PMAnalytics.rejectedQuery3, PMAnalytics.rejectedQuery4]
    ∧ PMAnalytics.rejectedCountTrace (fun _ => false)
      = [PMAnalytics.rejectedQuery1]
    ∧ PMAnalytics.rejectedQuery2.table = PMAnalytics.rejectedQuery1.table
    ∧ PMAnalytics.rejectedQuery2 ≠ PMAnalytics.rejectedQuery1 := by
  decide

/-- C3 amended: no remote query is ever reissued identically, and outside
`fetchAnalytics` of the PM Analytics page no failed query triggers any
follow-up query; within `fetchAnalytics`, a failure triggers fallback
variants with an alternative column spelling or table name (up to four
attempts for the rejected count, two for the tracker fetch), each variant
issued only when every earlier attempt failed. -/
theorem C3_amended_no_identical_retry (fails : PMAnalytics.Query → Bool) :
    (PMAnalytics.rejectedCountTrace fails).Nodup
    ∧ (PMAnalytics.rejectedCountTrace fails).head?
        = some PMAnalytics.rejectedQuery1
    ∧ (PMAnalytics.rejectedQuery2 ∈ PMAnalytics.rejectedCountTrace fails →
        fails PMAnalytics.rejectedQuery1 = true)
    ∧ (PMAnalytics.rejectedQuery3 ∈ PMAnalytics.rejectedCountTrace fails →
        fails PMAnalytics.rejectedQuery1 = true
        ∧ fails PMAnalytics.rejectedQuery2 = true)
    ∧ (PMAnalytics.rejectedQuery4 ∈ PMAnalytics.rejectedCountTrace fails →
        fails PMAnalytics.rejectedQuery1 = true
        ∧ fails PMAnalytics.rejectedQuery2 = true
        ∧ fails PMAnalytics.rejectedQuery3 = true)
    ∧ (fails PMAnalytics.rejectedQuery1 = false →
        PMAnalytics.rejectedCountTrace fails = [PMAnalytics.rejectedQuery1])
    ∧ (PMAnalytics.trackerFetchTrace fails).Nodup
    ∧ (PMAnalytics.Query.mk "screening_tracker" none ∈ PMAnalytics.trackerFetchTrace fails →
        fails (PMAnalytics.Query.mk "AEX_Screening_Tracker" none) = true)
    ∧ (fails (PMAnalytics.Query.mk "AEX_Screening_Tracker" none) = false →
        PMAnalytics.trackerFetchTrace fails
          = [PMAnalytics.Query.mk "AEX_Screening_Tracker" none])
    ∧ PMAnalytics.jobsFetchTrace fails
        = [PMAnalytics.Query.mk "AEX_Job_Data" none] := by
  by_cases h1 : fails PMAnalytics.rejectedQuery1 <;>
    by_cases h2 : fails PMAnalytics.rejectedQuery2 <;>
      by_cases h3 : fails PMAnalytics.rejectedQuery3 <;>
        by_cases h4 : fails (PMAnalytics.Query.mk "AEX_Screening_Tracker" none) <;>
          simp [PMAnalytics.rejectedCountTrace, PMAnalytics.trackerFetchTrace,
            PMAnalytics.jobsFetchTrace, h1, h2, h3, h4] <;>
          decide

namespace ResumeScoring

/-- The fields of a screening candidate row that `handleStartScreening` in
`src/pages/ResumeScoring.tsx` reads. -/
structure Candidate where
  id : ℕ
  applicationId : Option String
  roleCode : Option String
deriving DecidableEq, Repr

/-- A row inserted into `AEX_Screening_Batch_Queue`. -/
structure QueueRow where
  applicationId : String
  roleCode : String
  status : String
deriving DecidableEq, Repr

/-- The row-building callback of `handleStartScreening`:
`if (!applicationId || !roleCode) return null` — a `null` or empty-string
field yields no row — otherwise a row with `Status: "Pending"`. -/
def rowFor (c : Candidate) : Option QueueRow :=
  if jsTruthyOpt c.applicationId && jsTruthyOpt c.roleCode then
    some ⟨c.applicationId.getD "", c.roleCode.getD "", "Pending"⟩
  else none

/-- `selectedCandidates.map(rowFor).filter(row => row !== null)` applied to
the candidates whose id is in `selectedScreeningIds`. -/
def buildQueueRows (selectedIds : List ℕ) (cands : List Candidate) :
    List QueueRow :=
  (cands.filter (fun c => selectedIds.contains c.id)).filterMap rowFor

/-- A database mutation issued by `handleStartScreening`, in order. -/
inductive DbOp where
  | updateJDMapping : List ℕ → String → DbOp
  | insertQueue : List QueueRow → DbOp
deriving DecidableEq, Repr

/-- How the action ends: an error toast (any thrown error is caught by the
single catch block and shown as a toast) or the success toast with the
number of queued candidates. -/
inductive ActionResult where
  | errorToast : String → ActionResult
  | success : ℕ → ActionResult
deriving DecidableEq, Repr

/-- `handleStartScreening` from `src/pages/ResumeScoring.tsx` as the list
of database mutations it issues plus its outcome, given whether the
update and the insert fail remotely.  There is no compensation logic: a
failed insert leaves the earlier `JD_Mapping` update in place. -/
def handleStartScreening (selectedIds : List ℕ) (cands : List Candidate)
    (updateFails insertFails : Bool) : List DbOp × ActionResult :=
  if selectedIds.isEmpty then
    ([], ActionResult.errorToast "Please select at least one candidate")
  else
    let ops1 := [DbOp.updateJDMapping selectedIds "Screening Started"]
    if updateFails then (ops1, ActionResult.errorToast "update failed")
    else
      let rows := buildQueueRows selectedIds cands
      if rows.isEmpty then
        (ops1, ActionResult.errorToast
          "No valid rows to insert (missing Application ID or Role Code).")
      else
        let ops2 := ops1 ++ [DbOp.insertQueue rows]
        if insertFails then (ops2, ActionResult.errorToast "insert failed")
        else (ops2, ActionResult.success rows.length)

/-- C5 counterexample: a selected candidate whose `Application ID` is the
empty string — non-null — and whose `Role Code` is non-null gets no queue
row (the code tests JavaScript truthiness, `!applicationId`, not only
nullness), and with it as the only selection the action raises the
"No valid rows" error instead of inserting one row. -/
theorem C5_counterexample :
    (Candidate.mk 1 (some "") (some "RC1")).applicationId ≠ none
    ∧ (Candidate.mk 1 (some "") (some "RC1")).roleCode ≠ none
    ∧ buildQueueRows [1] [Candidate.mk 1 (some "") (some "RC1")] = []
    ∧ (handleStartScreening [1] [Candidate.mk 1 (some "") (some "RC1")]
        false false).2
      = ActionResult.errorToast
          "No valid rows to insert (missing Application ID or Role Code)."
    ∧ (handleStartScreening [1] [Candidate.mk 1 (some "") (some "RC1")]
        false false).1
      = [DbOp.updateJDMapping [1] "Screening Started"] := by
  decide

/-- C5 amended: with a non-empty selection, `handleStartScreening` first
issues the `JD_Mapping := "Screening Started"` update for the selected
ids; if the update succeeds it builds exactly one `Status: "Pending"`
queue row for each selected candidate whose `Application ID` and
`Role Code` are both non-null *and non-empty* (JavaScript truthiness),
candidates missing either yield no row; when no row results the action
raises an error and issues no insert; otherwise it issues the insert as
the second and last mutation, and a failing insert is not compensated —
the mutation list is still exactly update-then-insert, with no reverting
update. -/
theorem C5_amended_handleStartScreening (selectedIds : List ℕ)
    (cands : List Candidate) (updateFails insertFails : Bool)
    (h : selectedIds ≠ []) :
    (handleStartScreening selectedIds cands updateFails insertFails).1.head?
      = some (DbOp.updateJDMapping selectedIds "Screening Started")
    ∧ (updateFails = true →
        (handleStartScreening selectedIds cands updateFails insertFails).1
          = [DbOp.updateJDMapping selectedIds "Screening Started"])
    ∧ (updateFails = false → buildQueueRows selectedIds cands = [] →
        (handleStartScreening selectedIds cands updateFails insertFails)
          = ([DbOp.updateJDMapping selectedIds "Screening Started"],
             ActionResult.errorToast
               "No valid rows to insert (missing Application ID or Role Code)."))
    ∧ (updateFails = false → buildQueueRows selectedIds cands ≠ [] →
        (handleStartScreening selectedIds cands updateFails insertFails).1
          = [DbOp.updateJDMapping selectedIds "Screening Started",
             DbOp.insertQueue (buildQueueRows selectedIds cands)])
    ∧ buildQueueRows selectedIds cands
        = ((cands.filter (fun c => selectedIds.contains c.id)).filter
            (fun c => jsTruthyOpt c.applicationId &&
              jsTruthyOpt c.roleCode)).map
          (fun c => QueueRow.mk (c.applicationId.getD "")
            (c.roleCode.getD "") "Pending")
    ∧ (∀ row ∈ buildQueueRows selectedIds cands, row.status = "Pending") := by
  have hne : selectedIds.isEmpty = false := by
    cases selectedIds with
    | nil => exact absurd rfl h
    | cons a l => rfl
  have hrows : buildQueueRows selectedIds cands
      = ((cands.filter (fun c => selectedIds.contains c.id)).filter
          (fun c => jsTruthyOpt c.applicationId &&
            jsTruthyOpt c.roleCode)).map
        (fun c => QueueRow.mk (c.applicationId.getD "")
          (c.roleCode.getD "") "Pending") := by
    unfold buildQueueRows
    generalize cands.filter (fun c => selectedIds.contains c.id) = l
    induction l with
    | nil => rfl
    | cons c l ih =>
      by_cases h : (jsTruthyOpt c.applicationId &&
          jsTruthyOpt c.roleCode) = true
      · simp [List.filterMap_cons, List.filter_cons, rowFor, h, ih]
      · simp [List.filterMap_cons, List.filter_cons, rowFor, h, ih]
  refine ⟨?_, ?_, ?_, ?_, hrows, ?_⟩
  · cases updateFails <;>
      by_cases hr : (buildQueueRows selectedIds cands).isEmpty <;>
        cases insertFails <;> simp [handleStartScreening, hne, hr]
  · intro hu
    subst hu
    simp [handleStartScreening, hne]
  · intro hu hr0
    subst hu
    simp [handleStartScreening, hne, List.isEmpty_iff, hr0]
  · intro hu hr0
    subst hu
    cases insertFails <;>
      simp [handleStartScreening, hne, List.isEmpty_iff, hr0]
  · intro row hrow
    rw [hrows] at hrow
    simp only [List.mem_map] at hrow
    obtain ⟨c, _, rfl⟩ := hrow
    rfl

end ResumeScoring

namespace ResumeScoring

/-- Witness for the amended C5 at a concrete input: one selected candidate
with truthy Application ID and Role Code. -/
theorem C5_amended_witness :
    ([1] : List ℕ) ≠ []
    ∧ (handleStartScreening [1] [Candidate.mk 1 (some "A1") (some "R1")]
        false false).1.head?
      = some (DbOp.updateJDMapping [1] "Screening Started") :=
  ⟨by decide,
    (C5_amended_handleStartScreening [1]
      [Candidate.mk 1 (some "A1") (some "R1")] false false (by decide)).1⟩

end ResumeScoring

namespace Jobs

/-- A CSV row after the header/column mapping of `handleCsvUpload` in
`src/pages/Jobs.tsx`: the five fields the validation reads, each `none`
when absent (`row[mappedKey]` unset or set to `null`). -/
structure CsvRow where
  roleCode : Option String
  roleName : Option String
  location : Option String
  jdContext : Option String
  ctc : Option String
deriving DecidableEq, Repr

/-- `row["X"]?.trim()` followed by the `!x` falsiness test: `none` when the
field is absent or trims to the empty string, otherwise the trimmed
value. -/
def reqField (o : Option String) : Option String :=
  match o with
  | none => none
  | some s => if jsTrim s = "" then none else some (jsTrim s)

/-- The per-row field validations of `handleCsvUpload`, in source order;
`none` means the row passed them all.  `isUrl` models the
`new URL(...)`/protocol check. -/
def validationError (isUrl : String → Bool) (r : CsvRow) : Option String :=
  match reqField r.roleCode with
  | none => some "Missing Role Code"
  | some _ =>
    match reqField r.roleName with
    | none => some "Missing Role Name"
    | some _ =>
      match reqField r.location with
      | none => some "Missing Location"
      | some _ =>
        match reqField r.jdContext with
        | none => some "Missing Brief context about the role (JD)"
        | some jd =>
          if isUrl jd then
            match reqField r.ctc with
            | none => some "Missing Annual CTC"
            | some _ => none
          else some "JD must be a valid file URL (http:// or https://)"

/-- The status recorded for a processed CSV row. -/
inductive RowStatus where
  | invalid : String → RowStatus
  | duplicateInCsv : RowStatus
  | alreadyExists : RowStatus
  | success : RowStatus
deriving DecidableEq, Repr

/-- The (trimmed) Role Code a row is keyed on in the duplicate checks. -/
def rcOf (r : CsvRow) : String := (reqField r.roleCode).getD ""

/-- Status of one row given the codes already in the database (`existing`)
and the codes of previously accepted rows in this CSV (`seen`), in the
source order of checks: field validations, then `seenRoleCodes.has`, then
`existingRoleCodes.has`. -/
def classify (isUrl : String → Bool) (existing seen : List String)
    (r : CsvRow) : RowStatus :=
  match validationError isUrl r with
  | some reason => RowStatus.invalid reason
  | none =>
    if seen.contains (rcOf r) then RowStatus.duplicateInCsv
    else if existing.contains (rcOf r) then RowStatus.alreadyExists
    else RowStatus.success

/-- The row-processing loop of `handleCsvUpload`: returns the rows pushed
to `validRows` (later bulk-inserted into `AEX_Job_Data`) and the
`resultRows` entries, threading the `seenRoleCodes` set. -/
def csvLoop (isUrl : String → Bool) (existing : List String) :
    List CsvRow → List String → List CsvRow × List (CsvRow × RowStatus)
  | [], _ => ([], [])
  | r :: rest, seen =>
    if classify isUrl existing seen r = RowStatus.success then
      let p := csvLoop isUrl existing rest (seen ++ [rcOf r])
      (r :: p.1, (r, RowStatus.success) :: p.2)
    else
      let p := csvLoop isUrl existing rest seen
      (p.1, (r, classify isUrl existing seen r) :: p.2)

/-- The rows inserted into `AEX_Job_Data` by the bulk upload. -/
def validRows (isUrl : String → Bool) (existing : List String)
    (rows : List CsvRow) : List CsvRow :=
  (csvLoop isUrl existing rows []).1

/-- The per-row upload results. -/
def resultRows (isUrl : String → Bool) (existing : List String)
    (rows : List CsvRow) : List (CsvRow × RowStatus) :=
  (csvLoop isUrl existing rows []).2

theorem classify_success (isUrl : String → Bool) (existing seen : List String)
    (r : CsvRow) (h : classify isUrl existing seen r = RowStatus.success) :
    validationError isUrl r = none
    ∧ seen.contains (rcOf r) = false
    ∧ existing.contains (rcOf r) = false := by
  unfold classify at h
  rcases hv : validationError isUrl r with _ | reason
  · rw [hv] at h
    by_cases h1 : seen.contains (rcOf r) = true
    · rw [if_pos h1] at h
      exact absurd h (by decide)
    · rw [if_neg h1] at h
      by_cases h2 : existing.contains (rcOf r) = true
      · rw [if_pos h2] at h
        exact absurd h (by decide)
      · exact ⟨rfl, Bool.not_eq_true _ ▸ h1, Bool.not_eq_true _ ▸ h2⟩
  · rw [hv] at h
    exact absurd h (by simp)

theorem classify_of_existing (isUrl : String → Bool)
    (existing seen : List String) (r : CsvRow)
    (hv : validationError isUrl r = none)
    (hex : existing.contains (rcOf r) = true)
    (hseen : seen.contains (rcOf r) = false) :
    classify isUrl existing seen r = RowStatus.alreadyExists := by
  have hexm : rcOf r ∈ existing := by simpa using hex
  have hsm : rcOf r ∉ seen := by simpa using hseen
  unfold classify
  rw [hv]
  simp [hexm, hsm]

theorem classify_not_existing (isUrl : String → Bool)
    (existing seen : List String) (r : CsvRow)
    (hv : validationError isUrl r = none)
    (hex : existing.contains (rcOf r) = false) :
    classify isUrl existing seen r = RowStatus.success
    ∨ classify isUrl existing seen r = RowStatus.duplicateInCsv := by
  have hexm : rcOf r ∉ existing := by simpa using hex
  unfold classify
  rw [hv]
  by_cases h1 : rcOf r ∈ seen
  · simp [h1, hexm]
  · simp [h1, hexm]

end Jobs

namespace Jobs

theorem csvLoop_spec (isUrl : String → Bool) (existing : List String)
    (rows : List CsvRow) :
    ∀ seen : List String, (∀ c ∈ seen, existing.contains c = false) →
    ((csvLoop isUrl existing rows seen).1.map rcOf).Nodup
    ∧ (∀ c ∈ (csvLoop isUrl existing rows seen).1.map rcOf,
        c ∉ seen ∧ existing.contains c = false)
    ∧ (csvLoop isUrl existing rows seen).2.map Prod.fst = rows
    ∧ (csvLoop isUrl existing rows seen).1
        = ((csvLoop isUrl existing rows seen).2.filter
            (fun q => q.2 = RowStatus.success)).map Prod.fst
    ∧ (∀ p ∈ (csvLoop isUrl existing rows seen).2,
        validationError isUrl p.1 = none →
        existing.contains (rcOf p.1) = true → p.2 = RowStatus.alreadyExists)
    ∧ (∀ p ∈ (csvLoop isUrl existing rows seen).2,
        validationError isUrl p.1 = none →
        existing.contains (rcOf p.1) = false →
        p.2 = RowStatus.success ∨ p.2 = RowStatus.duplicateInCsv) := by
  induction rows with
  | nil =>
    intro seen hseen
    simp [csvLoop]
  | cons r rest ih =>
    intro seen hseen
    by_cases hc : classify isUrl existing seen r = RowStatus.success
    · have hs := classify_success isUrl existing seen r hc
      have hseen' : ∀ c ∈ seen ++ [rcOf r], existing.contains c = false := by
        intro c hcm
        rcases List.mem_append.1 hcm with h | h
        · exact hseen c h
        · rw [List.mem_singleton.1 h]
          exact hs.2.2
      obtain ⟨ih1, ih2, ih3, ih4, ih5, ih6⟩ := ih (seen ++ [rcOf r]) hseen'
      simp only [csvLoop, if_pos hc]
      refine ⟨?_, ?_, ?_, ?_, ?_, ?_⟩
      · rw [List.map_cons, List.nodup_cons]
        refine ⟨?_, ih1⟩
        intro hmem
        have := (ih2 (rcOf r) hmem).1
        exact this (List.mem_append.2 (Or.inr (List.mem_singleton.2 rfl)))
      · intro c hcm
        rw [List.map_cons, List.mem_cons] at hcm
        rcases hcm with rfl | hcm
        · have hns : rcOf r ∉ seen := by
            intro hmem
            have h1 := hseen _ hmem
            have h2 : seen.contains (rcOf r) = true := by simpa using hmem
            rw [hs.2.1] at h2
            exact absurd h2 (by decide)
          exact ⟨hns, hs.2.2⟩
        · have := ih2 c hcm
          exact ⟨fun hmem => this.1 (List.mem_append.2 (Or.inl hmem)),
            this.2⟩
      · rw [List.map_cons, ih3]
      · rw [List.filter_cons]
        simp only [decide_eq_true_eq, if_pos, eq_self_iff_true, if_true]
        rw [List.map_cons]
        rw [ih4]
      · intro p hp hv hex
        rcases List.mem_cons.1 hp with rfl | hp'
        · exfalso
          have hex' : existing.contains (rcOf r) = true := hex
          rw [hs.2.2] at hex'
          exact absurd hex' (by decide)
        · exact ih5 p hp' hv hex
      · intro p hp hv hex
        rcases List.mem_cons.1 hp with rfl | hp'
        · exact Or.inl rfl
        · exact ih6 p hp' hv hex
    · obtain ⟨ih1, ih2, ih3, ih4, ih5, ih6⟩ := ih seen hseen
      simp only [csvLoop, if_neg hc]
      refine ⟨ih1, ih2, ?_, ?_, ?_, ?_⟩
      · rw [List.map_cons, ih3]
      · rw [List.filter_cons]
        simp only [decide_eq_true_eq]
        rw [if_neg hc]
        exact ih4
      · intro p hp hv hex
        rcases List.mem_cons.1 hp with rfl | hp'
        · have hns : seen.contains (rcOf r) = false := by
            by_cases hmem : rcOf r ∈ seen
            · have h1 := hseen _ hmem
              rw [h1] at hex
              exact absurd hex (by decide)
            · simpa using hmem
          exact classify_of_existing isUrl existing seen r hv hex hns
        · exact ih5 p hp' hv hex
      · intro p hp hv hex
        rcases List.mem_cons.1 hp with rfl | hp'
        · exact classify_not_existing isUrl existing seen r hv hex
        · exact ih6 p hp' hv hex

end Jobs

namespace Jobs

theorem csvLoop_success_valid (isUrl : String → Bool)
    (existing : List String) (rows : List CsvRow) :
    ∀ seen : List String, ∀ p ∈ (csvLoop isUrl existing rows seen).2,
      p.2 = RowStatus.success →
      validationError isUrl p.1 = none
      ∧ existing.contains (rcOf p.1) = false := by
  induction rows with
  | nil =>
    intro seen p hp
    simp [csvLoop] at hp
  | cons r rest ih =>
    intro seen p hp hsu
    by_cases hc : classify isUrl existing seen r = RowStatus.success
    · simp only [csvLoop, if_pos hc] at hp
      rcases List.mem_cons.1 hp with rfl | hp'
      · have hs := classify_success isUrl existing seen r hc
        exact ⟨hs.1, hs.2.2⟩
      · exact ih (seen ++ [rcOf r]) p hp' hsu
    · simp only [csvLoop, if_neg hc] at hp
      rcases List.mem_cons.1 hp with rfl | hp'
      · exact absurd hsu hc
      · exact ih seen p hp' hsu

theorem rcOf_normalized (r : CsvRow) (s : String) (hr : r.roleCode = some s)
    (h1 : jsTrim s = s) (h2 : s ≠ "") : rcOf r = s := by
  unfold rcOf reqField
  rw [hr]
  simp [h1, h2]

theorem roleCode_some_of_valid (isUrl : String → Bool) (r : CsvRow)
    (hv : validationError isUrl r = none) : ∃ s, r.roleCode = some s := by
  unfold validationError at hv
  rcases h : reqField r.roleCode with _ | t
  · rw [h] at hv
    simp at hv
  · unfold reqField at h
    rcases hr : r.roleCode with _ | s
    · rw [hr] at h
      simp at h
    · exact ⟨s, rfl⟩

/-- C9: for every CSV bulk upload, the rows handed to the single
`AEX_Job_Data` insert contain no two rows with the same Role Code and no
row whose Role Code occurs among the Role Codes fetched from the database
at the start of the upload; every processed row is recorded with exactly
one status, a row is inserted exactly when its status is SUCCESS, and a
field-valid row whose code collides is recorded as ALREADY_EXISTS (code in
the database) or DUPLICATE_IN_CSV (code accepted earlier in the same file)
instead of being inserted.  The hypothesis records that the upstream
parsing stores only trimmed non-empty field values (`row[mappedKey] =
value || null` after `values[idx].trim()`). -/
theorem C9_csvUpload_noDuplicateInserts (isUrl : String → Bool)
    (existing : List String) (rows : List CsvRow)
    (hnorm : ∀ r ∈ rows, ∀ s, r.roleCode = some s →
      jsTrim s = s ∧ s ≠ "") :
    ((validRows isUrl existing rows).map CsvRow.roleCode).Nodup
    ∧ (∀ r ∈ validRows isUrl existing rows, ∀ s, r.roleCode = some s →
        existing.contains s = false)
    ∧ (resultRows isUrl existing rows).map Prod.fst = rows
    ∧ validRows isUrl existing rows
        = ((resultRows isUrl existing rows).filter
            (fun q => q.2 = RowStatus.success)).map Prod.fst
    ∧ (∀ p ∈ resultRows isUrl existing rows,
        validationError isUrl p.1 = none → ∀ s, p.1.roleCode = some s →
        existing.contains s = true → p.2 = RowStatus.alreadyExists)
    ∧ (∀ p ∈ resultRows isUrl existing rows,
        validationError isUrl p.1 = none → ∀ s, p.1.roleCode = some s →
        existing.contains s = false →
        p.2 = RowStatus.success ∨ p.2 = RowStatus.duplicateInCsv) := by
  obtain ⟨h1, h2, h3, h4, h5, h6⟩ := csvLoop_spec isUrl existing rows []
    (fun c hc => absurd hc (List.not_mem_nil c))
  have h3' : (resultRows isUrl existing rows).map Prod.fst = rows := h3
  have h4' : validRows isUrl existing rows
      = ((resultRows isUrl existing rows).filter
          (fun q => q.2 = RowStatus.success)).map Prod.fst := h4
  have hmemres : ∀ p ∈ resultRows isUrl existing rows, p.1 ∈ rows := by
    intro p hp
    rw [← h3']
    exact List.mem_map.2 ⟨p, hp, rfl⟩
  have hmemrows : ∀ r ∈ validRows isUrl existing rows, r ∈ rows := by
    intro r hr
    rw [h4'] at hr
    obtain ⟨p, hpf, rfl⟩ := List.mem_map.1 hr
    exact hmemres p (List.mem_filter.1 hpf).1
  have hval : ∀ r ∈ validRows isUrl existing rows,
      validationError isUrl r = none
      ∧ existing.contains (rcOf r) = false := by
    intro r hr
    rw [h4'] at hr
    obtain ⟨p, hpf, rfl⟩ := List.mem_map.1 hr
    have hf := List.mem_filter.1 hpf
    have hsu : p.2 = RowStatus.success := by simpa using hf.2
    exact csvLoop_success_valid isUrl existing rows [] p hf.1 hsu
  have hrc : ∀ r ∈ validRows isUrl existing rows, ∀ s,
      r.roleCode = some s → rcOf r = s := by
    intro r hr s hs
    have hn := hnorm r (hmemrows r hr) s hs
    exact rcOf_normalized r s hs hn.1 hn.2
  refine ⟨?_, ?_, h3', h4', ?_, ?_⟩
  · have h1' : ((validRows isUrl existing rows).map rcOf).Nodup := h1
    have h1p : (validRows isUrl existing rows).Pairwise
        (fun a b => rcOf a ≠ rcOf b) := by
      rwa [List.Nodup, List.pairwise_map] at h1'
    rw [List.Nodup, List.pairwise_map]
    refine List.Pairwise.imp_of_mem ?_ h1p
    intro a b ha hb hne heq
    obtain ⟨sa, hsa⟩ := roleCode_some_of_valid isUrl a (hval a ha).1
    obtain ⟨sb, hsb⟩ := roleCode_some_of_valid isUrl b (hval b hb).1
    have hka := hrc a ha sa hsa
    have hkb := hrc b hb sb hsb
    rw [hsa, hsb] at heq
    have : sa = sb := Option.some.inj heq
    exact hne (by rw [hka, hkb, this])
  · intro r hr s hs
    have := (hval r hr).2
    rwa [hrc r hr s hs] at this
  · intro p hp hv s hs hex
    have hn := hnorm p.1 (hmemres p hp) s hs
    have := rcOf_normalized p.1 s hs hn.1 hn.2
    exact h5 p hp hv (by rwa [this])
  · intro p hp hv s hs hex
    have hn := hnorm p.1 (hmemres p hp) s hs
    have := rcOf_normalized p.1 s hs hn.1 hn.2
    exact h6 p hp hv (by rwa [this])

end Jobs

namespace Jobs

/-- Witness for C9 at a concrete input: two rows sharing a Role Code and a
third whose Role Code is already in the database. -/
theorem C9_witness :
    (∀ r ∈ [CsvRow.mk (some "R1") (some "Dev") (some "Remote")
        (some "https://x.test/jd.pdf") (some "10"),
      CsvRow.mk (some "R1") (some "Dev2") (some "Remote")
        (some "https://x.test/jd.pdf") (some "11"),
      CsvRow.mk (some "R2") (some "Dev3") (some "Remote")
        (some "https://x.test/jd.pdf") (some "12")], ∀ s,
      r.roleCode = some s → jsTrim s = s ∧ s ≠ "")
    ∧ ((validRows (fun _ => true) ["R2"]
        [CsvRow.mk (some "R1") (some "Dev") (some "Remote")
          (some "https://x.test/jd.pdf") (some "10"),
         CsvRow.mk (some "R1") (some "Dev2") (some "Remote")
          (some "https://x.test/jd.pdf") (some "11"),
         CsvRow.mk (some "R2") (some "Dev3") (some "Remote")
          (some "https://x.test/jd.pdf") (some "12")]).map
        CsvRow.roleCode).Nodup :=
  ⟨by decide,
    (C9_csvUpload_noDuplicateInserts (fun _ => true) ["R2"]
      [CsvRow.mk (some "R1") (some "Dev") (some "Remote")
        (some "https://x.test/jd.pdf") (some "10"),
       CsvRow.mk (some "R1") (some "Dev2") (some "Remote")
        (some "https://x.test/jd.pdf") (some "11"),
       CsvRow.mk (some "R2") (some "Dev3") (some "Remote")
        (some "https://x.test/jd.pdf") (some "12")] (by decide)).1⟩

/-- `"${h}"` — a CSV cell wrapped in double quotes, as `handleCsvUpload`
emits it. -/
def quoteCell (s : String) : String := "\"" ++ s ++ "\""

/-- The header line of the generated result CSV:
`"Row Number","Status","Reason",` followed by the quoted original headers
(note the trailing comma when the header list is empty, exactly as the
template string produces). -/
def resultCsvHeader (headers : List String) : String :=
  "\"Row Number\",\"Status\",\"Reason\"," ++
    String.intercalate "," (headers.map quoteCell)

/-- The colour suffix attached to a status in the result CSV. -/
def statusColor (s : String) : String :=
  if s = "INVALID" then "RED"
  else if s = "ALREADY_EXISTS" || s = "DUPLICATE_IN_CSV" then "YELLOW"
  else "GREEN"

/-- One entry of `resultRows` as it reaches the CSV generator: the 1-based
row number, the status text, the reason (`result.reason ||
"Successfully inserted"`), and the re-parsed original cell values. -/
structure ResultEntry where
  rowNumber : ℕ
  statusText : String
  reason : String
  cells : List String
deriving DecidableEq, Repr

/-- One data line of the result CSV:
`"${rowNumber}","${status} (${color})","${reason}",` plus quoted cells. -/
def resultCsvLine (e : ResultEntry) : String :=
  quoteCell (toString e.rowNumber) ++ "," ++
    quoteCell (e.statusText ++ " (" ++ statusColor e.statusText ++ ")") ++
    "," ++ quoteCell e.reason ++ "," ++
    String.intercalate "," (e.cells.map quoteCell)

/-- The `resultCsvLines` array built by `handleCsvUpload`. -/
def resultCsvLines (headers : List String) (entries : List ResultEntry) :
    List String :=
  resultCsvHeader headers :: entries.map resultCsvLine

/-- The downloaded file content: `resultCsvLines.join("\n")`. -/
def resultCsv (headers : List String) (entries : List ResultEntry) :
    String :=
  String.intercalate "\n" (resultCsvLines headers entries)

/-- C7 counterexample: the CSV bulk upload in the Jobs page downloads a
result file whose column layout — a leading `"Row Number","Status",
"Reason"` triple followed by the original columns, with statuses rendered
as `STATUS (COLOR)` — is defined by this repository (the template strings
in `handleCsvUpload`), not by any externally defined format; so the
program does emit a file in a format invented by this codebase. -/
theorem C7_counterexample :
    resultCsvHeader ["role code"]
      = "\"Row Number\",\"Status\",\"Reason\",\"role code\""
    ∧ (resultCsvLines ["role code"]
        [ResultEntry.mk 1 "SUCCESS" "Successfully inserted" ["R1"]]).head?
      = some "\"Row Number\",\"Status\",\"Reason\",\"role code\""
    ∧ resultCsvLine
        (ResultEntry.mk 1 "SUCCESS" "Successfully inserted" ["R1"])
      = "\"1\",\"SUCCESS (GREEN)\",\"Successfully inserted\",\"R1\"" := by
  decide

/-- C7 amended: the repository does define one bespoke output layout — the
Jobs bulk-upload result CSV, whose lines are the repository-defined
`Row Number`/`Status`/`Reason` columns followed by the original header
columns, one line per processed row after the header line; no other file
the program emits uses a repository-defined layout. -/
theorem C7_amended_resultCsv_layout (headers : List String)
    (entries : List ResultEntry) :
    (resultCsvLines headers entries).length = entries.length + 1
    ∧ (resultCsvLines headers entries).head?
        = some (resultCsvHeader headers)
    ∧ (∀ e ∈ entries, resultCsvLine e ∈ resultCsvLines headers entries)
    ∧ resultCsv headers entries
        = String.intercalate "\n"
            (resultCsvHeader headers :: entries.map resultCsvLine) := by
  refine ⟨by simp [resultCsvLines], rfl, ?_, rfl⟩
  intro e he
  exact List.mem_cons_of_mem _ (List.mem_map_of_mem _ he)

end Jobs

namespace Candidates

/-- The fields of a candidate row that `groupCandidatesByContact` in the
Candidates page reads for grouping, ordering and the role-code list.
`createdAt` models the epoch value of the row's non-null, database-managed
`created_at` timestamp (whose parse always succeeds).  Fields used only
for display strings (name, location, the last-applied summaries) are
omitted: they play no part in the grouping claims. -/
structure AEXCandidate where
  contact : Option String
  roleCode : Option String
  createdAt : ℤ
deriving DecidableEq, Repr

/-- `candidate["Candidate Contact Number"]?.trim() || ""`. -/
def contactKey (c : AEXCandidate) : String :=
  (c.contact.map jsTrim).getD ""

/-- Appending a candidate to the entry of its contact in the insertion-
ordered map (`contactMap.get(contact)!.push(candidate)`), creating the
entry if absent. -/
def addToMap (m : List (String × List AEXCandidate)) (k : String)
    (c : AEXCandidate) : List (String × List AEXCandidate) :=
  match m with
  | [] => [(k, [c])]
  | (k', v) :: rest =>
    if k' = k then (k', v ++ [c]) :: rest
    else (k', v) :: addToMap rest k c

/-- The `contactMap` built by the `forEach` over the fetched candidates:
candidates whose trimmed contact is empty are skipped. -/
def buildContactMap (data : List AEXCandidate) :
    List (String × List AEXCandidate) :=
  data.foldl
    (fun m c => if contactKey c = "" then m else addToMap m (contactKey c) c)
    []

/-- First-match lookup in the insertion-ordered map. -/
def findGroup : List (String × List AEXCandidate) → String →
    List AEXCandidate
  | [], _ => []
  | (k, v) :: rest, c => if k = c then v else findGroup rest c

/-- The comparator-order of
`sort((a, b) => new Date(b.created_at) - new Date(a.created_at))`:
newest first. -/
def newestFirst (a b : AEXCandidate) : Bool :=
  decide (b.createdAt ≤ a.createdAt)

/-- `[...new Set(xs)]`: JavaScript sets preserve first-insertion order. -/
def firstDedupAux : List String → List String → List String
  | [], _ => []
  | a :: l, seen =>
    if seen.contains a then firstDedupAux l seen
    else a :: firstDedupAux l (seen ++ [a])

def firstDedup (l : List String) : List String := firstDedupAux l []

/-- The group record assembled per contact (grouping-relevant fields; the
display-only strings are omitted).  `timesApplied` is the constant `1`
the source assigns (`// Default value: No. of Times Applied = 1 for all
entries`). -/
structure GroupedCandidate where
  contact : String
  roleCodeList : List String
  timesApplied : ℕ
  allApplications : List AEXCandidate
deriving DecidableEq, Repr

def mkGroup (k : String) (apps : List AEXCandidate) : GroupedCandidate :=
  { contact := k
    roleCodeList :=
      firstDedup ((sortBy newestFirst apps).filterMap
        (fun a => a.roleCode))
    timesApplied := 1
    allApplications := sortBy newestFirst apps }

/-- The comparator-order of the final
`grouped.sort((a, b) => ...allApplications[0].created_at...)` (every real
group is non-empty; the `[]` default is unreachable). -/
def groupLe (a b : GroupedCandidate) : Bool :=
  decide ((match b.allApplications with
    | [] => (0 : ℤ)
    | c :: _ => c.createdAt)
    ≤ (match a.allApplications with
    | [] => (0 : ℤ)
    | c :: _ => c.createdAt))

/-- `groupCandidatesByContact` from the Candidates page: group by trimmed
contact, build a group per contact, sort groups newest-first. -/
def groupCandidatesByContact (data : List AEXCandidate) :
    List GroupedCandidate :=
  sortBy groupLe ((buildContactMap data).map (fun p => mkGroup p.1 p.2))

end Candidates

namespace Candidates

theorem findGroup_addToMap (m : List (String × List AEXCandidate))
    (k : String) (c : AEXCandidate) (q : String) :
    findGroup (addToMap m k c) q
      = if q = k then findGroup m k ++ [c] else findGroup m q := by
  induction m with
  | nil =>
    by_cases h : q = k
    · subst h
      simp [addToMap, findGroup]
    · have h' : ¬ k = q := fun hh => h hh.symm
      simp [addToMap, findGroup, h, h']
  | cons p rest ih =>
    obtain ⟨k0, v⟩ := p
    by_cases h0 : k0 = k
    · subst h0
      by_cases hq : q = k0
      · subst hq
        simp [addToMap, findGroup]
      · have hq' : ¬ k0 = q := fun hh => hq hh.symm
        simp [addToMap, findGroup, hq, hq']
    · by_cases hq : k0 = q
      · subst hq
        have h0' : ¬ k0 = k := h0
        by_cases hqk : k0 = k
        · exact absurd hqk h0'
        · simp [addToMap, findGroup, h0, hqk, fun hh => h0 hh,
            fun hh => hqk hh]
      · simp [addToMap, findGroup, h0, hq, ih]

theorem keys_addToMap (m : List (String × List AEXCandidate)) (k : String)
    (c : AEXCandidate) (q : String) :
    q ∈ (addToMap m k c).map Prod.fst
      ↔ q ∈ m.map Prod.fst ∨ q = k := by
  induction m with
  | nil => simp [addToMap]
  | cons p rest ih =>
    obtain ⟨k0, v⟩ := p
    by_cases h0 : k0 = k
    · subst h0
      rw [show addToMap ((k0, v) :: rest) k0 c = (k0, v ++ [c]) :: rest
        by simp [addToMap]]
      rw [List.map_cons, List.map_cons]
      constructor
      · exact fun h => Or.inl h
      · intro h
        rcases h with h | h
        · exact h
        · rw [h]
          exact List.mem_cons_self _ _
    · rw [show addToMap ((k0, v) :: rest) k c
          = (k0, v) :: addToMap rest k c by simp [addToMap, h0]]
      rw [List.map_cons, List.map_cons, List.mem_cons, List.mem_cons, ih]
      tauto

theorem nodup_keys_addToMap (m : List (String × List AEXCandidate))
    (k : String) (c : AEXCandidate)
    (h : (m.map Prod.fst).Nodup) :
    ((addToMap m k c).map Prod.fst).Nodup := by
  induction m with
  | nil => simp [addToMap]
  | cons p rest ih =>
    obtain ⟨k0, v⟩ := p
    rw [List.map_cons, List.nodup_cons] at h
    by_cases h0 : k0 = k
    · subst h0
      simpa [addToMap] using h
    · rw [show addToMap ((k0, v) :: rest) k c
          = (k0, v) :: addToMap rest k c by simp [addToMap, h0]]
      rw [List.map_cons, List.nodup_cons]
      refine ⟨?_, ih h.2⟩
      intro hmem
      rcases (keys_addToMap rest k c k0).1 hmem with hm | hm
      · exact h.1 hm
      · exact h0 hm

end Candidates

namespace Candidates

theorem buildFold_spec (data : List AEXCandidate) :
    ∀ m : List (String × List AEXCandidate),
    (∀ q, q ≠ "" →
      findGroup (data.foldl (fun m c =>
          if contactKey c = "" then m
          else addToMap m (contactKey c) c) m) q
        = findGroup m q
          ++ data.filter (fun c => decide (contactKey c = q)))
    ∧ (∀ q, q ∈ (data.foldl (fun m c =>
          if contactKey c = "" then m
          else addToMap m (contactKey c) c) m).map Prod.fst
        ↔ q ∈ m.map Prod.fst ∨ (q ≠ "" ∧ ∃ c ∈ data, contactKey c = q))
    ∧ ((m.map Prod.fst).Nodup →
        ((data.foldl (fun m c =>
          if contactKey c = "" then m
          else addToMap m (contactKey c) c) m).map Prod.fst).Nodup) := by
  induction data with
  | nil =>
    intro m
    refine ⟨?_, ?_, ?_⟩
    · intro q hq
      simp
    · intro q
      simp
    · intro h
      simpa using h
  | cons c rest ih =>
    intro m
    refine ⟨?_, ?_, ?_⟩
    · intro q hq
      rw [List.foldl_cons]
      rw [((ih _).1) q hq]
      by_cases hc : contactKey c = ""
      · rw [if_pos hc]
        have : decide (contactKey c = q) = false := by
          rw [hc]
          exact decide_eq_false (fun hh => hq hh.symm)
        rw [List.filter_cons, this]
        simp
      · rw [if_neg hc]
        rw [findGroup_addToMap]
        by_cases hcq : q = contactKey c
        · rw [if_pos hcq]
          have : decide (contactKey c = q) = true := by
            rw [hcq]
            exact decide_eq_true rfl
          rw [List.filter_cons, this]
          simp [hcq, List.append_assoc]
        · rw [if_neg hcq]
          have : decide (contactKey c = q) = false :=
            decide_eq_false (fun hh => hcq hh.symm)
          rw [List.filter_cons, this]
          simp
    · intro q
      rw [List.foldl_cons]
      rw [(ih _).2.1 q]
      by_cases hc : contactKey c = ""
      · rw [if_pos hc]
        constructor
        · intro h
          rcases h with h | h
          · exact Or.inl h
          · exact Or.inr ⟨h.1, by
              obtain ⟨c', hc', he⟩ := h.2
              exact ⟨c', List.mem_cons_of_mem c hc', he⟩⟩
        · intro h
          rcases h with h | ⟨hq, c', hc', he⟩
          · exact Or.inl h
          · rcases List.mem_cons.1 hc' with rfl | hc''
            · rw [he] at hc
              exact absurd hc hq
            · exact Or.inr ⟨hq, c', hc'', he⟩
      · rw [if_neg hc]
        rw [keys_addToMap]
        constructor
        · intro h
          rcases h with (h | h) | h
          · exact Or.inl h
          · subst h
            exact Or.inr ⟨hc, c, List.mem_cons_self c rest, rfl⟩
          · exact Or.inr ⟨h.1, by
              obtain ⟨c', hc', he⟩ := h.2
              exact ⟨c', List.mem_cons_of_mem c hc', he⟩⟩
        · intro h
          rcases h with h | ⟨hq, c', hc', he⟩
          · exact Or.inl (Or.inl h)
          · rcases List.mem_cons.1 hc' with rfl | hc''
            · exact Or.inl (Or.inr he.symm)
            · exact Or.inr ⟨hq, c', hc'', he⟩
    · intro h
      rw [List.foldl_cons]
      refine (ih _).2.2 ?_
      by_cases hc : contactKey c = ""
      · rwa [if_pos hc]
      · rw [if_neg hc]
        exact nodup_keys_addToMap m (contactKey c) c h

theorem buildContactMap_spec (data : List AEXCandidate) :
    (∀ q, q ≠ "" →
      findGroup (buildContactMap data) q
        = data.filter (fun c => decide (contactKey c = q)))
    ∧ (∀ q, q ∈ (buildContactMap data).map Prod.fst
        ↔ (q ≠ "" ∧ ∃ c ∈ data, contactKey c = q))
    ∧ ((buildContactMap data).map Prod.fst).Nodup := by
  obtain ⟨h1, h2, h3⟩ := buildFold_spec data []
  refine ⟨?_, ?_, h3 (by simp)⟩
  · intro q hq
    have := h1 q hq
    simpa [findGroup] using this
  · intro q
    have := h2 q
    simpa using this

theorem findGroup_of_mem (m : List (String × List AEXCandidate))
    (hnd : (m.map Prod.fst).Nodup) (k : String) (v : List AEXCandidate)
    (h : (k, v) ∈ m) : findGroup m k = v := by
  induction m with
  | nil => simp at h
  | cons p rest ih =>
    obtain ⟨k0, v0⟩ := p
    rw [List.map_cons, List.nodup_cons] at hnd
    rcases List.mem_cons.1 h with heq | hmem
    · cases heq
      simp [findGroup]
    · have hk : ¬ k0 = k := by
        intro h'
        subst h'
        exact hnd.1 (List.mem_map.2 ⟨(k0, v), hmem, rfl⟩)
      rw [show findGroup ((k0, v0) :: rest) k = findGroup rest k
        by simp [findGroup, hk]]
      exact ih hnd.2 hmem

end Candidates

namespace Candidates

theorem newestFirst_total (a b : AEXCandidate) :
    newestFirst a b = true ∨ newestFirst b a = true := by
  unfold newestFirst
  rcases le_total b.createdAt a.createdAt with h | h
  · exact Or.inl (decide_eq_true h)
  · exact Or.inr (decide_eq_true h)

theorem newestFirst_trans (a b c : AEXCandidate)
    (h1 : newestFirst a b = true) (h2 : newestFirst b c = true) :
    newestFirst a c = true := by
  unfold newestFirst at *
  simp only [decide_eq_true_eq] at *
  exact le_trans h2 h1

/-- C8: `groupCandidatesByContact` produces exactly one group per distinct
non-empty trimmed contact number; each group's `allApplications` is
precisely (a permutation, orderd newest-first, of) the candidate rows with
that trimmed contact; candidates with an empty trimmed contact appear in
no group; and every group's `timesApplied` is the constant 1, however many
applications the contact has. -/
theorem C8_groupCandidatesByContact (data : List AEXCandidate) :
    ((groupCandidatesByContact data).map GroupedCandidate.contact).Nodup
    ∧ (∀ k, k ∈ (groupCandidatesByContact data).map
          GroupedCandidate.contact
        ↔ (k ≠ "" ∧ ∃ c ∈ data, contactKey c = k))
    ∧ (∀ g ∈ groupCandidatesByContact data, g.timesApplied = 1)
    ∧ (∀ g ∈ groupCandidatesByContact data, g.contact ≠ "")
    ∧ (∀ g ∈ groupCandidatesByContact data,
        List.Perm g.allApplications
          (data.filter (fun c => decide (contactKey c = g.contact))))
    ∧ (∀ g ∈ groupCandidatesByContact data,
        g.allApplications.Pairwise (fun a b => b.createdAt ≤ a.createdAt))
    ∧ (∀ g ∈ groupCandidatesByContact data, ∀ c ∈ g.allApplications,
        contactKey c ≠ "") := by
  obtain ⟨hfind, hkeys, hnd⟩ := buildContactMap_spec data
  have hmem : ∀ g, g ∈ groupCandidatesByContact data ↔
      ∃ p ∈ buildContactMap data, g = mkGroup p.1 p.2 := by
    intro g
    unfold groupCandidatesByContact
    rw [mem_sortBy, List.mem_map]
    constructor
    · rintro ⟨p, hp, rfl⟩
      exact ⟨p, hp, rfl⟩
    · rintro ⟨p, hp, rfl⟩
      exact ⟨p, hp, rfl⟩
  have hfun : GroupedCandidate.contact ∘
      (fun p : String × List AEXCandidate => mkGroup p.1 p.2)
      = Prod.fst := funext fun p => rfl
  have hmapc : List.Perm
      ((groupCandidatesByContact data).map GroupedCandidate.contact)
      ((buildContactMap data).map Prod.fst) := by
    unfold groupCandidatesByContact
    have hp := (sortBy_perm groupLe
      ((buildContactMap data).map (fun p => mkGroup p.1 p.2))).map
      GroupedCandidate.contact
    rwa [List.map_map, hfun] at hp
  have happs : ∀ g ∈ groupCandidatesByContact data,
      List.Perm g.allApplications
        (data.filter (fun c => decide (contactKey c = g.contact)))
      ∧ g.timesApplied = 1 ∧ g.contact ≠ "" := by
    intro g hg
    obtain ⟨p, hp, rfl⟩ := (hmem g).1 hg
    have hk : p.1 ∈ (buildContactMap data).map Prod.fst :=
      List.mem_map.2 ⟨p, hp, rfl⟩
    have hkne : p.1 ≠ "" := ((hkeys p.1).1 hk).1
    have hv : findGroup (buildContactMap data) p.1 = p.2 :=
      findGroup_of_mem (buildContactMap data) hnd p.1 p.2 hp
    have hfilter : p.2 = data.filter
        (fun c => decide (contactKey c = p.1)) := by
      rw [← hv]
      exact hfind p.1 hkne
    refine ⟨?_, rfl, hkne⟩
    show List.Perm (sortBy newestFirst p.2) _
    rw [hfilter]
    exact sortBy_perm newestFirst _
  refine ⟨?_, ?_, ?_, ?_, ?_, ?_, ?_⟩
  · exact hmapc.nodup_iff.2 hnd
  · intro k
    rw [hmapc.mem_iff]
    exact hkeys k
  · exact fun g hg => (happs g hg).2.1
  · exact fun g hg => (happs g hg).2.2
  · exact fun g hg => (happs g hg).1
  · intro g hg
    obtain ⟨p, hp, rfl⟩ := (hmem g).1 hg
    have hpw := pairwise_sortBy newestFirst newestFirst_total p.2
      (fun x _ y _ z _ => newestFirst_trans x y z)
    refine hpw.imp ?_
    intro a b h
    unfold newestFirst at h
    exact of_decide_eq_true h
  · intro g hg c hc
    have := ((happs g hg).1.mem_iff).1 hc
    have hcf := List.mem_filter.1 this
    have hck : contactKey c = g.contact := by simpa using hcf.2
    rw [hck]
    exact (happs g hg).2.2

end Candidates
